import Mathlib

/-!
Shallow embedding of the vim-ultest orchestration core
(`rplugin/python3/ultest/handler/__init__.py` and
`rplugin/python3/ultest/models/test.py`).

The `Handler` methods are translated into pure functions over an explicit
`HandlerState`; editor notifications (`self._vim.call(...)` /
`self._vim.command(...)`) become an emitted trace of `Event`s.  Each trace
entry is paired with the value of `snapshot[file]` (`self._stored_tests`)
for the relevant file at the moment the notification is emitted, so that
ordering claims about commit-vs-notify can be stated.

Collaborators that live outside the given sources (`TestFinder.find_all`,
`TestFinder.get_nearest_from`, `ProcessManager.is_running`, the vim-side
pattern lookup, buffer inspection) are passed in as explicit oracle
parameters, exactly where the Python code performs the corresponding calls.
-/

namespace Ultest

/-- Test entity, from `models/test.py`: dataclass with fields
`id, name, file, line, col, running` (with `running : int` used as 0/1). -/
structure Test where
  id : String
  name : String
  file : String
  line : Nat
  col : Nat
  running : Nat
deriving DecidableEq

/-- Result entity (`models/result.py` is referenced by the handler as
`Result(id=…, file=…, code=…, output=…)`). -/
structure Result where
  id : String
  file : String
  code : Int
  output : String
deriving DecidableEq

/-- Editor notifications emitted by the handler through `self._vim`. -/
inductive Event where
  | start (t : Test)
  | exit (t : Test) (r : Result)
  | move (t : Test)
  | new (t : Test)
  | replace (t : Test) (r : Result)
  | clear (t : Test)
  | storeSortedIds (file : String) (ids : List String)
  | setbufvar (file : String) (var : String)
  | positionsUpdate
  | outputOpen (r : Result)
deriving DecidableEq

/-- Modelled from the spec: the Run Engine (`ProcessManager`,
`handler/processes.py`) is not among the given sources.  Per §6 it offers
`register_new_test`, `is_running`, `register_external_output` and
`clear_external_output`; per the §3 invariant a test id counts as running
iff a start was registered and not yet followed by a result/clear. -/
structure ProcessManager where
  started : List String
  externalOutputs : List (String × String)
deriving DecidableEq

/-- Modelled from the spec: `ProcessManager.register_new_test`. -/
def registerNewTest (pm : ProcessManager) (t : Test) : ProcessManager :=
  { pm with started := if pm.started.contains t.id then pm.started else pm.started ++ [t.id] }

/-- Modelled from the spec: `ProcessManager.register_external_output`. -/
def registerExternalOutput (pm : ProcessManager) (id out : String) : ProcessManager :=
  { pm with externalOutputs := (id, out) :: pm.externalOutputs }

/-- Modelled from the spec: `ProcessManager.clear_external_output` ends the
externally-registered run for `id` and drops its live-output buffer. -/
def clearExternalOutput (pm : ProcessManager) (id : String) : ProcessManager :=
  { started := pm.started.filter (fun a => a != id),
    externalOutputs := pm.externalOutputs.filter (fun e => e.1 != id) }

/-- Modelled from the spec: `ProcessManager.is_running`. -/
def pmIsRunning (pm : ProcessManager) (id : String) : Bool :=
  pm.started.contains id

/-- Modelled from the spec: the live-output buffer held for `id`. -/
def pmOutput (pm : ProcessManager) (id : String) : Option String :=
  (pm.externalOutputs.find? (fun e => e.1 == id)).map Prod.snd

/-- Modelled from the spec: `ResultStore.add` (`handler/results.py` is not
among the given sources); a later result for the same (file, id) supersedes
the earlier one. -/
def resultsAdd (m : String → String → Option Result) (file : String) (r : Result) :
    String → String → Option Result :=
  fun f i => if f = file ∧ i = r.id then some r else m f i

/-- State owned by the `Handler`: the per-file snapshot `self._stored_tests`,
the result cache `self._results` (as its `get` view), the process manager,
the vim client's task registry (`self._vim.launch` / `self._vim.stop`), and
the `g:ultest_output_on_run` flag read at construction. -/
structure HandlerState where
  storedTests : String → List Test
  results : String → String → Option Result
  pm : ProcessManager
  tasks : List String
  showOnRun : Bool

/-- Outcome of the vim-side `ultest#adapter#get_patterns` call in
`update_positions`: it either raises or returns a (possibly empty) value. -/
inductive PatternsCall where
  | raised : PatternsCall
  | ok (ps : List String) : PatternsCall
deriving DecidableEq

/-- Environment read by `update_positions`: `os.path.isfile(file_name)` and
the pattern lookup. -/
structure UpdateEnv where
  isFile : Bool
  patterns : PatternsCall
deriving DecidableEq

/-- True when `update_positions` gets past its three guard returns and
launches the discovery runner. -/
def UpdateEnv.launches (env : UpdateEnv) : Bool :=
  env.isFile && (match env.patterns with
    | PatternsCall.raised => false
    | PatternsCall.ok ps => !ps.isEmpty)

/-- Python dict insertion (`d[k] = v`): replace in place if the key exists,
otherwise append. -/
def dictInsert (k : String) (v : Test) (d : List (String × Test)) : List (String × Test) :=
  if d.any (fun e => e.1 == k) then d.map (fun e => if e.1 = k then (k, v) else e)
  else d ++ [(k, v)]

/-- The dict built at `recorded_tests = {test.id: test for test in …}`. -/
def dictOfTests (ts : List Test) : List (String × Test) :=
  ts.foldl (fun d t => dictInsert t.id t d) []

/-- Python `d.pop(k)` guarded by `k in d`: returns the value and the dict
without that entry, or `none` when the key is absent. -/
def dictPop (k : String) : List (String × Test) → Option (Test × List (String × Test))
  | [] => none
  | e :: d =>
    if e.1 = k then some (e.2, d)
    else match dictPop k d with
      | none => none
      | some (v, d') => some (v, e :: d')

/-- The `for test in tests:` loop of the `runner()` coroutine inside
`update_positions` (lines 212–230).  Arguments: the tests still to process,
the prefix already processed (with the in-place `running` mutations applied,
mirroring that the committed list's elements are mutated), and the
`recorded_tests` dict.  Returns the trace (each event paired with
`snapshot[file]` at emission), the final committed list, and the leftover
`recorded_tests`. -/
def diffTests (ir : String → Bool) (res : String → String → Option Result) :
    List Test → List Test → List (String × Test) →
    List (Event × List Test) × List Test × List (String × Test)
  | [], done, recorded => ([], done, recorded)
  | t :: rest, done, recorded =>
    match dictPop t.id recorded with
    | some (recTest, recorded') =>
      if recTest.line ≠ t.line then
        let t' : Test := { t with running := if ir t.id then 1 else 0 }
        let r := diffTests ir res rest (done ++ [t']) recorded'
        ((Event.move t', done ++ t' :: rest) :: r.1, r.2)
      else
        diffTests ir res rest (done ++ [t]) recorded'
    | none =>
      match res t.file t.id with
      | some result =>
        let r := diffTests ir res rest (done ++ [t]) recorded
        ((Event.replace t result, done ++ t :: rest) :: r.1, r.2)
      | none =>
        let r := diffTests ir res rest (done ++ [t]) recorded
        ((Event.new t, done ++ t :: rest) :: r.1, r.2)

/-- The body of `update_positions` past its guards: the synchronous
`setbufvar` resets for a first population, then the launched `runner()`
coroutine (commit at line 206, `store_sorted_ids`, the diff loop, the
removal notifications, the `UltestPositionsUpdate` autocommand, and the
optional continuation). -/
def updateBody (ir : String → Bool) (nt : List Test)
    (cb : Option (HandlerState → HandlerState × List (Event × List Test)))
    (st : HandlerState) (file : String) :
    HandlerState × List (Event × List Test) × Bool :=
  let prev := st.storedTests file
  let recorded := dictOfTests prev
  let pre : List (Event × List Test) :=
    if recorded = [] then
      [(Event.setbufvar file "ultest_results", prev),
       (Event.setbufvar file "ultest_tests", prev),
       (Event.setbufvar file "ultest_sorted_tests", prev)]
    else []
  let d := diffTests ir st.results nt [] recorded
  let fin := d.2.1
  let rem := d.2.2
  let tr : List (Event × List Test) :=
    (Event.storeSortedIds file (nt.map Test.id), nt) :: d.1
      ++ rem.map (fun e => (Event.clear e.2, fin))
      ++ [(Event.positionsUpdate, fin)]
  let st1 : HandlerState := { st with
    storedTests := fun f => if f = file then fin else st.storedTests f,
    tasks := st.tasks ++ ["update_positions"] }
  match cb with
  | none => (st1, pre ++ tr, true)
  | some k =>
    let kr := k st1
    (kr.1, pre ++ tr ++ kr.2, true)

/-- `Handler.update_positions` (lines 175–244).  `nt` is the list produced
by `self._finder.find_all`, `ir` is the Run Engine's `is_running` oracle,
`cb` the optional continuation.  The returned `Bool` records whether the
discovery runner was launched. -/
def update_positions (env : UpdateEnv) (ir : String → Bool) (nt : List Test)
    (cb : Option (HandlerState → HandlerState × List (Event × List Test)))
    (st : HandlerState) (file : String) :
    HandlerState × List (Event × List Test) × Bool :=
  if env.isFile = false then (st, [], false)
  else match env.patterns with
  | PatternsCall.raised => (st, [], false)
  | PatternsCall.ok ps =>
    if ps = [] then (st, [], false)
    else updateBody ir nt cb st file

/-- Marks `test.running = 1` in the snapshot list for the aliased element
mutated by `_register_started` (the iterables handed to `_run_tests` alias
the snapshot's `Test` objects). -/
def markRunning (l : List Test) (id : String) : List Test :=
  l.map fun t => if t.id = id then { t with running := 1 } else t

/-- The `for test in tests:` loop of `Handler._run_tests` (lines 84–93):
for each test, `_register_started` (set `running`, register with the Run
Engine, emit the start notification) and launch of the per-id run task. -/
def runTestsGo (file : String) : HandlerState → List Test → HandlerState × List (Event × List Test)
  | st, [] => (st, [])
  | st, t :: rest =>
    let t' : Test := { t with running := 1 }
    let st1 : HandlerState := { st with
      pm := registerNewTest st.pm t',
      storedTests := fun f => if f = file then markRunning (st.storedTests f) t.id else st.storedTests f,
      tasks := st.tasks ++ [t.id] }
    let r := runTestsGo file st1 rest
    (r.1, (Event.start t', st1.storedTests file) :: r.2)

/-- `Handler._run_tests` over a selection of tests from `file`'s snapshot. -/
def run_tests (st : HandlerState) (file : String) (selected : List Test) :
    HandlerState × List (Event × List Test) :=
  runTestsGo file st selected

/-- `Handler.run_all` (lines 114–134).  `nt` is what discovery would find for
the file (consumed only when the retry path launches `update_positions`).
The final `Nat` counts launched reconciliation runners. -/
def run_all (env : UpdateEnv) (ir : String → Bool) (nt : List Test)
    (file : String) (update_empty : Bool) (st : HandlerState) :
    HandlerState × List (Event × List Test) × Nat :=
  let tests := st.storedTests file
  if h : tests = [] ∧ update_empty then
    let r := update_positions env ir nt
      (some fun s =>
        let o := run_all env ir nt file false s
        (o.1, o.2.1)) st file
    (r.1, r.2.1, if r.2.2 then 1 else 0)
  else if tests = [] then (st, [], 0)
  else
    let p := run_tests st file tests
    (p.1, p.2, 0)
termination_by (if update_empty then 1 else 0)
decreasing_by simp_all

/-- `Handler.run_nearest` (lines 136–162).  `gn` is the pure
`TestFinder.get_nearest_from` oracle. -/
def run_nearest (env : UpdateEnv) (ir : String → Bool) (nt : List Test)
    (gn : Nat → List Test → Bool → Option Test) (line : Nat)
    (file : String) (update_empty : Bool) (st : HandlerState) :
    HandlerState × List (Event × List Test) × Nat :=
  let tests := st.storedTests file
  if h : tests = [] ∧ update_empty then
    let r := update_positions env ir nt
      (some fun s =>
        let o := run_nearest env ir nt gn line file false s
        (o.1, o.2.1)) st file
    (r.1, r.2.1, if r.2.2 then 1 else 0)
  else
    match gn line tests false with
    | some t =>
      let p := run_tests st file [t]
      (p.1, p.2, 0)
    | none => (st, [], 0)
termination_by (if update_empty then 1 else 0)
decreasing_by simp_all

/-- `Handler.run_single` (lines 164–173): runs the snapshot tests whose id
matches; it never calls `update_positions` (final component 0). -/
def run_single (st : HandlerState) (test_id file : String) :
    HandlerState × List (Event × List Test) × Nat :=
  let tests := st.storedTests file
  let p := run_tests st file (tests.filter (fun t => t.id = test_id))
  (p.1, p.2, 0)

/-- Environment read by `_present_output` at presentation time: the
currently displayed buffer (`expand('%')`), the cursor line reported by
`getbufinfo`, and the pure nearest-test oracle. -/
structure PresentEnv where
  expandCurrent : String
  bufLine : Nat
  getNearest : Nat → List Test → Bool → Option Test

/-- `Handler.get_nearest_test` (lines 246–251). -/
def get_nearest_test (gn : Nat → List Test → Bool → Option Test)
    (st : HandlerState) (line : Nat) (file : String) (strict : Bool) : Option Test :=
  gn line (st.storedTests file) strict

/-- `Handler._present_output` (lines 106–112): open the output only for a
failing result whose file is the displayed buffer and whose id matches the
freshly re-resolved non-strict nearest test. -/
def present_output (penv : PresentEnv) (st : HandlerState) (r : Result) :
    List (Event × List Test) :=
  if r.code ≠ 0 ∧ penv.expandCurrent = r.file then
    match get_nearest_test penv.getNearest st penv.bufLine r.file false with
    | some nearest =>
      if nearest.id = r.id then [(Event.outputOpen r, st.storedTests r.file)] else []
    | none => []
  else []

/-- `Handler._register_result` (lines 100–104): store in the result cache,
emit the exit notification, and (when configured and output is nonempty)
schedule `_present_output`. -/
def register_result (penv : PresentEnv) (st : HandlerState) (t : Test) (r : Result) :
    HandlerState × List (Event × List Test) :=
  let st1 : HandlerState := { st with results := resultsAdd st.results r.file r }
  let present := if st1.showOnRun ∧ r.output ≠ "" then present_output penv st1 r else []
  (st1, (Event.exit t r, st1.storedTests r.file) :: present)

/-- `Handler._register_started` (lines 95–98) for an externally-constructed
test (not aliased to any snapshot entry). -/
def register_started (st : HandlerState) (t : Test) : HandlerState × Test × List (Event × List Test) :=
  let t' : Test := { t with running := 1 }
  ({ st with pm := registerNewTest st.pm t' }, t', [(Event.start t', st.storedTests t'.file)])

/-- `Handler.external_start` (lines 62–69). -/
def external_start (st : HandlerState) (td : Test) (stdout : String) :
    HandlerState × List (Event × List Test) :=
  let r := register_started st td
  let st1 := r.1
  let st2 := if stdout ≠ "" then { st1 with pm := registerExternalOutput st1.pm td.id stdout } else st1
  (st2, r.2.2)

/-- `Handler.external_result` (lines 71–76). -/
def external_result (penv : PresentEnv) (st : HandlerState) (td : Test)
    (exit_code : Int) (stdout : String) : HandlerState × List (Event × List Test) :=
  let r : Result := { id := td.id, file := td.file, code := exit_code, output := stdout }
  let st1 : HandlerState := { st with pm := clearExternalOutput st.pm td.id }
  register_result penv st1 td r

/-- `Handler.stop_test` (lines 263–271): `none` models any falsy payload. -/
def stop_test (st : HandlerState) (td : Option Test) : HandlerState × List (Event × List Test) :=
  match td with
  | none => (st, [])
  | some t0 =>
    let st1 : HandlerState := { st with tasks := st.tasks.filter (fun a => a != t0.id) }
    let t : Test := { t0 with running := 0 }
    (st1, [(Event.move t, st1.storedTests t.file)])

/-! ### Event classifiers and counting, used to state the diff claims -/

/-- Number of events in a trace satisfying `p`. -/
def countEv (p : Event → Bool) (evs : List Event) : Nat := (evs.filter p).length

/-- A removal notification (`ultest#process#clear`) for the given id. -/
def isClearOf (id : String) : Event → Bool
  | Event.clear t => t.id == id
  | _ => false

/-- A new-test notification for the given id. -/
def isNewOf (id : String) : Event → Bool
  | Event.new t => t.id == id
  | _ => false

/-- A replace notification for the given id. -/
def isReplaceOf (id : String) : Event → Bool
  | Event.replace t _ => t.id == id
  | _ => false

/-- A move notification for the given id. -/
def isMoveOf (id : String) : Event → Bool
  | Event.move t => t.id == id
  | _ => false

/-- A start notification (`ultest#process#start`). -/
def isStart : Event → Bool
  | Event.start _ => true
  | _ => false

/-- The per-test notifications of one reconciliation pass: move, new,
replace and removal. -/
def isPerTestEvent : Event → Bool
  | Event.move _ => true
  | Event.new _ => true
  | Event.replace _ _ => true
  | Event.clear _ => true
  | _ => false

/-- The identity-and-position view of a test, for stating which list a
snapshot holds while `running` flags may differ. -/
def idLine (t : Test) : String × Nat := (t.id, t.line)

/-! ### Concrete fixtures used by witnesses and counterexamples -/

/-- Fixture: a test `t1` at line 10. -/
def t1a : Test := ⟨"t1", "n1", "f", 10, 1, 0⟩

/-- Fixture: a test `t2` at line 20. -/
def t2a : Test := ⟨"t2", "n2", "f", 20, 1, 0⟩

/-- Fixture: `t1` rediscovered at line 15. -/
def t1b : Test := ⟨"t1", "n1", "f", 15, 1, 0⟩

/-- Fixture: a fresh test `t3` at line 20. -/
def t3a : Test := ⟨"t3", "n3", "f", 20, 1, 0⟩

/-- Fixture: snapshot holding `[t1, t2]` for file `f`. -/
def st0 : HandlerState :=
  ⟨fun f => if f = "f" then [t1a, t2a] else [], fun _ _ => none, ⟨[], []⟩, [], true⟩

/-- Fixture: snapshot holding `[t1]` for file `f`. -/
def st1f : HandlerState :=
  ⟨fun f => if f = "f" then [t1a] else [], fun _ _ => none, ⟨[], []⟩, [], true⟩

/-- Fixture: empty snapshot everywhere. -/
def stEmpty : HandlerState :=
  ⟨fun _ => [], fun _ _ => none, ⟨[], []⟩, [], true⟩

/-- Fixture: snapshot `[t1, t2]` plus a cached result for (`f`, `t3`). -/
def stRes3 : HandlerState :=
  ⟨fun f => if f = "f" then [t1a, t2a] else [],
   fun f i => if f = "f" ∧ i = "t3" then some ⟨"t3", "f", 2, "boom"⟩ else none,
   ⟨[], []⟩, [], true⟩

/-- Fixture: an environment in which discovery can proceed. -/
def env0 : UpdateEnv := ⟨true, PatternsCall.ok ["pat"]⟩

/-- Fixture: the file does not exist on disk. -/
def envNoFile : UpdateEnv := ⟨false, PatternsCall.ok ["pat"]⟩

/-- Fixture: a Run Engine that reports every id as running. -/
def ir0 : String → Bool := fun _ => true

/-- Fixture: a nearest-test oracle that never finds anything. -/
def gnNone : Nat → List Test → Bool → Option Test := fun _ _ _ => none

/-- Fixture: the external payload of the §8 injection scenario. -/
def payloadX : Test := ⟨"x", "X", "f", 1, 1, 1⟩

/-- Fixture: a presentation environment displaying file `f` at line 12,
with a head-of-list nearest oracle. -/
def penv0 : PresentEnv := ⟨"f", 12, fun _ l _ => l.head?⟩

/-- Fixture: a failing result for `t1` in file `f`. -/
def rFail : Result := ⟨"t1", "f", 1, "boom"⟩

/-! ### Basic helper lemmas -/

lemma contains_filter_bne (x : String) (l : List String) :
    (l.filter (fun a => a != x)).contains x = false := by
  induction l with
  | nil => rfl
  | cons a l ih =>
    by_cases hax : a = x
    · simpa [List.filter_cons, hax] using ih
    · have hxa : ¬x = a := fun hxa => hax hxa.symm
      simp [List.filter_cons, hax, ih, hxa]

lemma find_filter_bne (x : String) (l : List (String × String)) :
    (l.filter (fun e => e.1 != x)).find? (fun e => e.1 == x) = none := by
  rw [List.find?_eq_none]
  intro e he
  have := (List.mem_filter.mp he).2
  simpa using this

@[simp] lemma countEv_nil (p : Event → Bool) : countEv p [] = 0 := rfl

@[simp] lemma countEv_cons (p : Event → Bool) (e : Event) (evs : List Event) :
    countEv p (e :: evs) = (if p e = true then 1 else 0) + countEv p evs := by
  by_cases hp : p e = true <;> simp [countEv, List.filter_cons, hp, Nat.add_comm]

@[simp] lemma countEv_append (p : Event → Bool) (l1 l2 : List Event) :
    countEv p (l1 ++ l2) = countEv p l1 + countEv p l2 := by
  simp [countEv, List.filter_append]

/-! ### Dict lemmas -/

lemma foldl_dictInsert_disjoint (l : List Test) :
    ∀ d : List (String × Test),
    (∀ t ∈ l, ∀ e ∈ d, e.1 ≠ t.id) → (l.map Test.id).Nodup →
    l.foldl (fun d t => dictInsert t.id t d) d = d ++ l.map (fun t => (t.id, t)) := by
  induction l with
  | nil => intro d _ _; simp
  | cons t l ih =>
    intro d hdisj hnd
    have hnd' : (l.map Test.id).Nodup ∧ t.id ∉ l.map Test.id := by
      rw [List.map_cons, List.nodup_cons] at hnd
      exact ⟨hnd.2, hnd.1⟩
    have hfresh : d.any (fun e => e.1 == t.id) = false := by
      simp only [List.any_eq_false]
      intro e he
      simpa using hdisj t (by simp) e he
    have hins : dictInsert t.id t d = d ++ [(t.id, t)] := by
      simp [dictInsert, hfresh]
    rw [List.foldl_cons, hins,
      ih (d ++ [(t.id, t)]) ?_ hnd'.1]
    · simp
    · intro t' ht' e he
      rcases List.mem_append.mp he with he | he
      · exact hdisj t' (by simp [ht']) e he
      · have he' : e = (t.id, t) := by simpa using he
        subst he'
        intro hcontra
        apply hnd'.2
        have hid : t.id = t'.id := hcontra
        rw [hid]
        exact List.mem_map_of_mem Test.id ht'

lemma dictOfTests_eq_map (l : List Test) (h : (l.map Test.id).Nodup) :
    dictOfTests l = l.map (fun t => (t.id, t)) := by
  simpa using foldl_dictInsert_disjoint l [] (by simp) h

lemma dictPop_none_iff (k : String) (d : List (String × Test)) :
    dictPop k d = none ↔ k ∉ d.map Prod.fst := by
  induction d with
  | nil => simp [dictPop]
  | cons e d ih =>
    by_cases he : e.1 = k
    · simp [dictPop, he]
    · have hke : ¬k = e.1 := fun hk => he hk.symm
      rcases hd : dictPop k d with _ | p
      · simp [dictPop, he, hd, hke, ih.mp hd]
      · rcases p with ⟨v, d'⟩
        simp only [dictPop, he, if_false, hd, if_neg]
        simp only [List.map_cons, List.mem_cons]
        constructor
        · intro hcontra; exact absurd hcontra (by simp)
        · intro hk
          exfalso
          have : k ∈ d.map Prod.fst := by
            by_contra hnk
            rw [← ih] at hnk
            rw [hnk] at hd
            exact absurd hd (by simp)
          exact hk (Or.inr this)

lemma dictPop_some_mem (k : String) (d : List (String × Test)) (v : Test)
    (d' : List (String × Test)) (h : dictPop k d = some (v, d')) : (k, v) ∈ d := by
  induction d generalizing d' with
  | nil => simp [dictPop] at h
  | cons e d ih =>
    by_cases he : e.1 = k
    · simp only [dictPop, he, if_true] at h
      have he2 : e = (k, v) := by
        obtain ⟨e1, e2⟩ := e
        simp at h he
        simp [he, h.1]
      rw [he2] at *
      exact List.mem_cons_self _ _
    · simp only [dictPop, he, if_false] at h
      rcases hd : dictPop k d with _ | p
      · rw [hd] at h; exact absurd h (by simp)
      · rcases p with ⟨v0, d0⟩
        rw [hd] at h
        simp at h
        exact List.mem_cons.mpr (Or.inr (h.1 ▸ ih d0 (by rw [hd, h.1])))

lemma dictPop_some_sub (k : String) (d : List (String × Test)) (v : Test)
    (d' : List (String × Test)) (h : dictPop k d = some (v, d')) :
    ∀ e ∈ d', e ∈ d := by
  induction d generalizing d' with
  | nil => simp [dictPop] at h
  | cons e d ih =>
    by_cases he : e.1 = k
    · simp only [dictPop, he, if_true] at h
      have hd' : d' = d := by
        simp at h
        exact h.2.symm
      intro x hx
      exact List.mem_cons.mpr (Or.inr (hd' ▸ hx))
    · simp only [dictPop, he, if_false] at h
      rcases hd : dictPop k d with _ | p
      · rw [hd] at h; exact absurd h (by simp)
      · rcases p with ⟨v0, d0⟩
        rw [hd] at h
        simp at h
        intro x hx
        rw [← h.2] at hx
        rcases List.mem_cons.mp hx with hx | hx
        · exact List.mem_cons.mpr (Or.inl hx)
        · exact List.mem_cons.mpr (Or.inr (ih d0 (by rw [hd, h.1]) x hx))

lemma dictPop_some_keep (k : String) (d : List (String × Test)) (v : Test)
    (d' : List (String × Test)) (h : dictPop k d = some (v, d')) :
    ∀ e ∈ d, e.1 ≠ k → e ∈ d' := by
  induction d generalizing d' with
  | nil => simp [dictPop] at h
  | cons e d ih =>
    by_cases he : e.1 = k
    · simp only [dictPop, he, if_true] at h
      have hd' : d' = d := by
        simp at h
        exact h.2.symm
      intro x hx hxk
      rcases List.mem_cons.mp hx with hx | hx
      · exact absurd (hx ▸ he) hxk
      · exact hd' ▸ hx
    · simp only [dictPop, he, if_false] at h
      rcases hd : dictPop k d with _ | p
      · rw [hd] at h; exact absurd h (by simp)
      · rcases p with ⟨v0, d0⟩
        rw [hd] at h
        simp at h
        intro x hx hxk
        rw [← h.2]
        rcases List.mem_cons.mp hx with hx | hx
        · exact List.mem_cons.mpr (Or.inl hx)
        · exact List.mem_cons.mpr (Or.inr (ih d0 (by rw [hd, h.1]) x hx hxk))

lemma dictPop_some_keys (k : String) (d : List (String × Test)) (v : Test)
    (d' : List (String × Test)) (hnd : (d.map Prod.fst).Nodup)
    (h : dictPop k d = some (v, d')) :
    (d'.map Prod.fst).Nodup ∧ ∀ id, (id ∈ d'.map Prod.fst ↔ id ∈ d.map Prod.fst ∧ id ≠ k) := by
  induction d generalizing d' with
  | nil => simp [dictPop] at h
  | cons e d ih =>
    have hnd' : (d.map Prod.fst).Nodup ∧ e.1 ∉ d.map Prod.fst := by
      rw [List.map_cons, List.nodup_cons] at hnd
      exact ⟨hnd.2, hnd.1⟩
    by_cases he : e.1 = k
    · simp only [dictPop, he, if_true] at h
      have hd' : d' = d := by
        simp at h
        exact h.2.symm
      subst hd'
      refine ⟨hnd'.1, fun id => ?_⟩
      simp only [List.map_cons, List.mem_cons]
      constructor
      · intro hid
        refine ⟨Or.inr hid, fun hik => ?_⟩
        rw [hik, ← he] at hid
        exact hnd'.2 hid
      · rintro ⟨hid | hid, hik⟩
        · exact absurd (hid.trans he) hik
        · exact hid
    · simp only [dictPop, he, if_false] at h
      rcases hd : dictPop k d with _ | p
      · rw [hd] at h; exact absurd h (by simp)
      · rcases p with ⟨v0, d0⟩
        rw [hd] at h
        simp at h
        obtain ⟨hv, hd0⟩ := h
        subst hd0
        obtain ⟨hnd0, hkeys0⟩ := ih d0 hnd'.1 (by rw [hd, hv])
        constructor
        · rw [List.map_cons, List.nodup_cons]
          refine ⟨fun hcontra => ?_, hnd0⟩
          exact hnd'.2 ((hkeys0 e.1).mp hcontra).1
        · intro id
          simp only [List.map_cons, List.mem_cons, hkeys0 id]
          constructor
          · rintro (hid | ⟨hid, hik⟩)
            · exact ⟨Or.inl hid, hid ▸ he⟩
            · exact ⟨Or.inr hid, hik⟩
          · rintro ⟨hid | hid, hik⟩
            · exact Or.inl hid
            · exact Or.inr ⟨hid, hik⟩

lemma dictPop_mem_nodup (k : String) (v : Test) (d : List (String × Test))
    (hnd : (d.map Prod.fst).Nodup) (hmem : (k, v) ∈ d) :
    ∃ d', dictPop k d = some (v, d') := by
  induction d with
  | nil => simp at hmem
  | cons e d ih =>
    have hnd' : (d.map Prod.fst).Nodup ∧ e.1 ∉ d.map Prod.fst := by
      rw [List.map_cons, List.nodup_cons] at hnd
      exact ⟨hnd.2, hnd.1⟩
    rcases List.mem_cons.mp hmem with hm | hm
    · exact ⟨d, by simp [dictPop, ← hm]⟩
    · have hek : e.1 ≠ k := by
        intro hcontra
        exact hnd'.2 (hcontra ▸ (List.mem_map_of_mem Prod.fst hm : (k, v).1 ∈ _))
      obtain ⟨d', hd'⟩ := ih hnd'.1 hm
      exact ⟨e :: d', by simp [dictPop, hek, hd']⟩

/-! ### Reconciliation-loop lemmas -/

lemma countEv_eq_zero {p : Event → Bool} {E : List Event} (h : ∀ e ∈ E, ¬p e = true) :
    countEv p E = 0 := by
  simp [countEv, List.filter_eq_nil_iff.mpr h]

/-- The moved-test value written back into the committed list. -/
def movedTest (ir : String → Bool) (t : Test) : Test :=
  { t with running := if ir t.id = true then 1 else 0 }

lemma diffTests_step_move (ir : String → Bool) (res : String → String → Option Result)
    (t : Test) (rest done : List Test) (recorded : List (String × Test))
    (v : Test) (rec' : List (String × Test))
    (hpop : dictPop t.id recorded = some (v, rec')) (hline : v.line ≠ t.line) :
    diffTests ir res (t :: rest) done recorded =
      ((Event.move (movedTest ir t), done ++ movedTest ir t :: rest)
          :: (diffTests ir res rest (done ++ [movedTest ir t]) rec').1,
        (diffTests ir res rest (done ++ [movedTest ir t]) rec').2) := by
  simp [diffTests, hpop, hline, movedTest]

lemma diffTests_step_stay (ir : String → Bool) (res : String → String → Option Result)
    (t : Test) (rest done : List Test) (recorded : List (String × Test))
    (v : Test) (rec' : List (String × Test))
    (hpop : dictPop t.id recorded = some (v, rec')) (hline : ¬v.line ≠ t.line) :
    diffTests ir res (t :: rest) done recorded = diffTests ir res rest (done ++ [t]) rec' := by
  simp [diffTests, hpop, hline]

lemma diffTests_step_replace (ir : String → Bool) (res : String → String → Option Result)
    (t : Test) (rest done : List Test) (recorded : List (String × Test)) (r0 : Result)
    (hpop : dictPop t.id recorded = none) (hres : res t.file t.id = some r0) :
    diffTests ir res (t :: rest) done recorded =
      ((Event.replace t r0, done ++ t :: rest)
          :: (diffTests ir res rest (done ++ [t]) recorded).1,
        (diffTests ir res rest (done ++ [t]) recorded).2) := by
  simp [diffTests, hpop, hres]

lemma diffTests_step_new (ir : String → Bool) (res : String → String → Option Result)
    (t : Test) (rest done : List Test) (recorded : List (String × Test))
    (hpop : dictPop t.id recorded = none) (hres : res t.file t.id = none) :
    diffTests ir res (t :: rest) done recorded =
      ((Event.new t, done ++ t :: rest)
          :: (diffTests ir res rest (done ++ [t]) recorded).1,
        (diffTests ir res rest (done ++ [t]) recorded).2) := by
  simp [diffTests, hpop, hres]

lemma diffTests_no_clear (ir : String → Bool) (res : String → String → Option Result)
    (id : String) (rest : List Test) :
    ∀ (done : List Test) (recorded : List (String × Test)),
    countEv (isClearOf id) ((diffTests ir res rest done recorded).1.map Prod.fst) = 0 := by
  induction rest with
  | nil => intro done recorded; simp [diffTests]
  | cons t rest ih =>
    intro done recorded
    rcases hpop : dictPop t.id recorded with _ | ⟨v, rec'⟩
    · rcases hres : res t.file t.id with _ | r0
      · rw [diffTests_step_new ir res t rest done recorded hpop hres]
        simp [ih, isClearOf]
      · rw [diffTests_step_replace ir res t rest done recorded r0 hpop hres]
        simp [ih, isClearOf]
    · by_cases hline : v.line ≠ t.line
      · rw [diffTests_step_move ir res t rest done recorded v rec' hpop hline]
        simp [ih, isClearOf]
      · rw [diffTests_step_stay ir res t rest done recorded v rec' hpop hline]
        exact ih _ _

lemma diffTests_event_src (ir : String → Bool) (res : String → String → Option Result)
    (rest : List Test) :
    ∀ done recorded e, e ∈ (diffTests ir res rest done recorded).1.map Prod.fst →
    ∃ t ∈ rest, (∃ t' : Test, t'.id = t.id ∧ e = Event.move t')
      ∨ e = Event.new t ∨ ∃ r0, e = Event.replace t r0 := by
  induction rest with
  | nil => intro done recorded e he; simp [diffTests] at he
  | cons t rest ih =>
    intro done recorded e he
    rcases hpop : dictPop t.id recorded with _ | ⟨v, rec'⟩
    · rcases hres : res t.file t.id with _ | r0
      · rw [diffTests_step_new ir res t rest done recorded hpop hres] at he
        simp only [List.map_cons, List.mem_cons] at he
        rcases he with he | he
        · exact ⟨t, by simp, Or.inr (Or.inl he)⟩
        · obtain ⟨t0, ht0, hc⟩ := ih _ _ e he
          exact ⟨t0, by simp [ht0], hc⟩
      · rw [diffTests_step_replace ir res t rest done recorded r0 hpop hres] at he
        simp only [List.map_cons, List.mem_cons] at he
        rcases he with he | he
        · exact ⟨t, by simp, Or.inr (Or.inr ⟨r0, he⟩)⟩
        · obtain ⟨t0, ht0, hc⟩ := ih _ _ e he
          exact ⟨t0, by simp [ht0], hc⟩
    · by_cases hline : v.line ≠ t.line
      · rw [diffTests_step_move ir res t rest done recorded v rec' hpop hline] at he
        simp only [List.map_cons, List.mem_cons] at he
        rcases he with he | he
        · exact ⟨t, by simp, Or.inl ⟨movedTest ir t, rfl, he⟩⟩
        · obtain ⟨t0, ht0, hc⟩ := ih _ _ e he
          exact ⟨t0, by simp [ht0], hc⟩
      · rw [diffTests_step_stay ir res t rest done recorded v rec' hpop hline] at he
        obtain ⟨t0, ht0, hc⟩ := ih _ _ e he
        exact ⟨t0, by simp [ht0], hc⟩

lemma diffTests_zero_of_not_mem (ir : String → Bool) (res : String → String → Option Result)
    (id : String) (rest : List Test)
    (done : List Test) (recorded : List (String × Test)) (hid : id ∉ rest.map Test.id) :
    countEv (isMoveOf id) ((diffTests ir res rest done recorded).1.map Prod.fst) = 0 ∧
    countEv (isNewOf id) ((diffTests ir res rest done recorded).1.map Prod.fst) = 0 ∧
    countEv (isReplaceOf id) ((diffTests ir res rest done recorded).1.map Prod.fst) = 0 := by
  refine ⟨countEv_eq_zero ?_, countEv_eq_zero ?_, countEv_eq_zero ?_⟩ <;>
  · intro e he
    obtain ⟨t, ht, hc⟩ := diffTests_event_src ir res rest done recorded e he
    have htid : ¬t.id = id := by
      intro hcontra
      exact hid (hcontra ▸ List.mem_map_of_mem Test.id ht)
    rcases hc with ⟨t', ht', he'⟩ | he' | ⟨r0, he'⟩ <;> subst he' <;>
      simp only [isMoveOf, isNewOf, isReplaceOf, beq_iff_eq] <;>
      first
        | exact fun hcontra => htid (ht'.symm.trans hcontra)
        | exact fun hcontra => htid hcontra
        | simp

lemma diffTests_fin_append (ir : String → Bool) (res : String → String → Option Result)
    (rest : List Test) :
    ∀ done recorded, ∃ suf, (diffTests ir res rest done recorded).2.1 = done ++ suf := by
  induction rest with
  | nil => intro done recorded; exact ⟨[], by simp [diffTests]⟩
  | cons t rest ih =>
    intro done recorded
    rcases hpop : dictPop t.id recorded with _ | ⟨v, rec'⟩
    · rcases hres : res t.file t.id with _ | r0
      · obtain ⟨suf, hsuf⟩ := ih (done ++ [t]) recorded
        refine ⟨t :: suf, ?_⟩
        rw [diffTests_step_new ir res t rest done recorded hpop hres]
        simpa using hsuf
      · obtain ⟨suf, hsuf⟩ := ih (done ++ [t]) recorded
        refine ⟨t :: suf, ?_⟩
        rw [diffTests_step_replace ir res t rest done recorded r0 hpop hres]
        simpa using hsuf
    · by_cases hline : v.line ≠ t.line
      · obtain ⟨suf, hsuf⟩ := ih (done ++ [movedTest ir t]) rec'
        refine ⟨movedTest ir t :: suf, ?_⟩
        rw [diffTests_step_move ir res t rest done recorded v rec' hpop hline]
        simpa using hsuf
      · obtain ⟨suf, hsuf⟩ := ih (done ++ [t]) rec'
        refine ⟨t :: suf, ?_⟩
        rw [diffTests_step_stay ir res t rest done recorded v rec' hpop hline]
        simpa using hsuf

lemma diffTests_fin_idLine (ir : String → Bool) (res : String → String → Option Result)
    (rest : List Test) :
    ∀ done recorded,
    (diffTests ir res rest done recorded).2.1.map idLine = (done ++ rest).map idLine := by
  induction rest with
  | nil => intro done recorded; simp [diffTests]
  | cons t rest ih =>
    intro done recorded
    rcases hpop : dictPop t.id recorded with _ | ⟨v, rec'⟩
    · rcases hres : res t.file t.id with _ | r0
      · rw [diffTests_step_new ir res t rest done recorded hpop hres]
        have := ih (done ++ [t]) recorded
        simp only [List.map_append, List.append_assoc] at this ⊢
        simpa using this
      · rw [diffTests_step_replace ir res t rest done recorded r0 hpop hres]
        have := ih (done ++ [t]) recorded
        simp only [List.map_append, List.append_assoc] at this ⊢
        simpa using this
    · by_cases hline : v.line ≠ t.line
      · rw [diffTests_step_move ir res t rest done recorded v rec' hpop hline]
        have := ih (done ++ [movedTest ir t]) rec'
        simp only [List.map_append, List.append_assoc] at this ⊢
        simpa [movedTest, idLine] using this
      · rw [diffTests_step_stay ir res t rest done recorded v rec' hpop hline]
        have := ih (done ++ [t]) rec'
        simp only [List.map_append, List.append_assoc] at this ⊢
        simpa using this

lemma diffTests_trace_idLine (ir : String → Bool) (res : String → String → Option Result)
    (rest : List Test) :
    ∀ done recorded p, p ∈ (diffTests ir res rest done recorded).1 →
    p.2.map idLine = (done ++ rest).map idLine := by
  induction rest with
  | nil => intro done recorded p hp; simp [diffTests] at hp
  | cons t rest ih =>
    intro done recorded p hp
    rcases hpop : dictPop t.id recorded with _ | ⟨v, rec'⟩
    · rcases hres : res t.file t.id with _ | r0
      · rw [diffTests_step_new ir res t rest done recorded hpop hres] at hp
        rcases List.mem_cons.mp hp with hp | hp
        · subst hp; simp
        · have := ih (done ++ [t]) recorded p hp
          simp only [List.map_append, List.append_assoc] at this ⊢
          simpa using this
      · rw [diffTests_step_replace ir res t rest done recorded r0 hpop hres] at hp
        rcases List.mem_cons.mp hp with hp | hp
        · subst hp; simp
        · have := ih (done ++ [t]) recorded p hp
          simp only [List.map_append, List.append_assoc] at this ⊢
          simpa using this
    · by_cases hline : v.line ≠ t.line
      · rw [diffTests_step_move ir res t rest done recorded v rec' hpop hline] at hp
        rcases List.mem_cons.mp hp with hp | hp
        · subst hp
          simp [movedTest, idLine]
        · have := ih (done ++ [movedTest ir t]) rec' p hp
          simp only [List.map_append, List.append_assoc] at this ⊢
          simpa [movedTest, idLine] using this
      · rw [diffTests_step_stay ir res t rest done recorded v rec' hpop hline] at hp
        have := ih (done ++ [t]) rec' p hp
        simp only [List.map_append, List.append_assoc] at this ⊢
        simpa using this

lemma diffTests_rem_sub (ir : String → Bool) (res : String → String → Option Result)
    (rest : List Test) :
    ∀ done recorded e, e ∈ (diffTests ir res rest done recorded).2.2 → e ∈ recorded := by
  induction rest with
  | nil => intro done recorded e he; simpa [diffTests] using he
  | cons t rest ih =>
    intro done recorded e he
    rcases hpop : dictPop t.id recorded with _ | ⟨v, rec'⟩
    · rcases hres : res t.file t.id with _ | r0
      · rw [diffTests_step_new ir res t rest done recorded hpop hres] at he
        exact ih _ _ e he
      · rw [diffTests_step_replace ir res t rest done recorded r0 hpop hres] at he
        exact ih _ _ e he
    · by_cases hline : v.line ≠ t.line
      · rw [diffTests_step_move ir res t rest done recorded v rec' hpop hline] at he
        exact dictPop_some_sub t.id recorded v rec' hpop e (ih _ _ e he)
      · rw [diffTests_step_stay ir res t rest done recorded v rec' hpop hline] at he
        exact dictPop_some_sub t.id recorded v rec' hpop e (ih _ _ e he)

lemma diffTests_rem_nodup (ir : String → Bool) (res : String → String → Option Result)
    (rest : List Test) :
    ∀ done recorded, (recorded.map Prod.fst).Nodup →
    (((diffTests ir res rest done recorded).2.2.map Prod.fst)).Nodup := by
  induction rest with
  | nil => intro done recorded h; simpa [diffTests] using h
  | cons t rest ih =>
    intro done recorded hnd
    rcases hpop : dictPop t.id recorded with _ | ⟨v, rec'⟩
    · rcases hres : res t.file t.id with _ | r0
      · rw [diffTests_step_new ir res t rest done recorded hpop hres]
        exact ih _ _ hnd
      · rw [diffTests_step_replace ir res t rest done recorded r0 hpop hres]
        exact ih _ _ hnd
    · by_cases hline : v.line ≠ t.line
      · rw [diffTests_step_move ir res t rest done recorded v rec' hpop hline]
        exact ih _ _ (dictPop_some_keys t.id recorded v rec' hnd hpop).1
      · rw [diffTests_step_stay ir res t rest done recorded v rec' hpop hline]
        exact ih _ _ (dictPop_some_keys t.id recorded v rec' hnd hpop).1

lemma diffTests_rem_keys (ir : String → Bool) (res : String → String → Option Result)
    (id : String) (rest : List Test) :
    ∀ done recorded, (recorded.map Prod.fst).Nodup →
    (id ∈ (diffTests ir res rest done recorded).2.2.map Prod.fst ↔
      id ∈ recorded.map Prod.fst ∧ id ∉ rest.map Test.id) := by
  induction rest with
  | nil => intro done recorded _; simp [diffTests]
  | cons t rest ih =>
    intro done recorded hnd
    rcases hpop : dictPop t.id recorded with _ | ⟨v, rec'⟩
    · have htid : t.id ∉ recorded.map Prod.fst := (dictPop_none_iff t.id recorded).mp hpop
      have hcommon : (id ∈ recorded.map Prod.fst ∧ id ∉ rest.map Test.id) ↔
          (id ∈ recorded.map Prod.fst ∧ id ∉ (t :: rest).map Test.id) := by
        simp only [List.map_cons, List.mem_cons, not_or]
        constructor
        · rintro ⟨hmem, hnr⟩
          exact ⟨hmem, fun hc => htid (hc ▸ hmem), hnr⟩
        · rintro ⟨hmem, _, hnr⟩
          exact ⟨hmem, hnr⟩
      rcases hres : res t.file t.id with _ | r0
      · rw [diffTests_step_new ir res t rest done recorded hpop hres,
          ih (done ++ [t]) recorded hnd]
        exact hcommon
      · rw [diffTests_step_replace ir res t rest done recorded r0 hpop hres,
          ih (done ++ [t]) recorded hnd]
        exact hcommon
    · obtain ⟨hnd', hkeys'⟩ := dictPop_some_keys t.id recorded v rec' hnd hpop
      have hcommon : (id ∈ rec'.map Prod.fst ∧ id ∉ rest.map Test.id) ↔
          (id ∈ recorded.map Prod.fst ∧ id ∉ (t :: rest).map Test.id) := by
        rw [hkeys' id]
        simp only [List.map_cons, List.mem_cons, not_or]
        tauto
      by_cases hline : v.line ≠ t.line
      · rw [diffTests_step_move ir res t rest done recorded v rec' hpop hline,
          ih (done ++ [movedTest ir t]) rec' hnd']
        exact hcommon
      · rw [diffTests_step_stay ir res t rest done recorded v rec' hpop hline,
          ih (done ++ [t]) rec' hnd']
        exact hcommon

lemma diffTests_nr_count (ir : String → Bool) (res : String → String → Option Result)
    (id : String) (rest : List Test) :
    ∀ done recorded, (rest.map Test.id).Nodup → (recorded.map Prod.fst).Nodup →
    countEv (isNewOf id) ((diffTests ir res rest done recorded).1.map Prod.fst)
      + countEv (isReplaceOf id) ((diffTests ir res rest done recorded).1.map Prod.fst) =
      if id ∈ rest.map Test.id ∧ id ∉ recorded.map Prod.fst then 1 else 0 := by
  induction rest with
  | nil => intro done recorded _ _; simp [diffTests]
  | cons t rest ih =>
    intro done recorded hndt hnd
    have hndt' : (rest.map Test.id).Nodup ∧ t.id ∉ rest.map Test.id := by
      rw [List.map_cons, List.nodup_cons] at hndt
      exact ⟨hndt.2, hndt.1⟩
    rcases hpop : dictPop t.id recorded with _ | ⟨v, rec'⟩
    · -- fresh id: a new or replace notification is emitted for `t`
      have htid : t.id ∉ recorded.map Prod.fst := (dictPop_none_iff t.id recorded).mp hpop
      by_cases hidt : id = t.id
      · subst hidt
        obtain ⟨_, hzn, hzr⟩ :=
          diffTests_zero_of_not_mem ir res t.id rest (done ++ [t]) recorded hndt'.2
        rcases hres : res t.file t.id with _ | r0
        · rw [diffTests_step_new ir res t rest done recorded hpop hres]
          simp [isNewOf, isReplaceOf, hzn, hzr, htid]
        · rw [diffTests_step_replace ir res t rest done recorded r0 hpop hres]
          simp [isNewOf, isReplaceOf, hzn, hzr, htid]
      · have hhead : ¬(t.id == id) = true := by
          simp only [beq_iff_eq]
          exact fun hc => hidt (hc.symm)
        have hcond : (id ∈ rest.map Test.id ∧ id ∉ recorded.map Prod.fst) ↔
            (id ∈ (t :: rest).map Test.id ∧ id ∉ recorded.map Prod.fst) := by
          simp only [List.map_cons, List.mem_cons]
          tauto
        rcases hres : res t.file t.id with _ | r0
        · rw [diffTests_step_new ir res t rest done recorded hpop hres]
          rw [show ((Event.new t, done ++ t :: rest)
              :: (diffTests ir res rest (done ++ [t]) recorded).1,
              (diffTests ir res rest (done ++ [t]) recorded).2).1.map Prod.fst
            = Event.new t :: (diffTests ir res rest (done ++ [t]) recorded).1.map Prod.fst
            from by simp]
          rw [countEv_cons, countEv_cons]
          simp only [isNewOf, isReplaceOf, hhead, if_false]
          simp only [Bool.false_eq_true, if_false]
          have := ih (done ++ [t]) recorded hndt'.1 hnd
          rw [if_congr hcond rfl rfl] at this
          omega
        · rw [diffTests_step_replace ir res t rest done recorded r0 hpop hres]
          rw [show ((Event.replace t r0, done ++ t :: rest)
              :: (diffTests ir res rest (done ++ [t]) recorded).1,
              (diffTests ir res rest (done ++ [t]) recorded).2).1.map Prod.fst
            = Event.replace t r0 :: (diffTests ir res rest (done ++ [t]) recorded).1.map Prod.fst
            from by simp]
          rw [countEv_cons, countEv_cons]
          simp only [isNewOf, isReplaceOf, hhead, if_false]
          simp only [Bool.false_eq_true, if_false]
          have := ih (done ++ [t]) recorded hndt'.1 hnd
          rw [if_congr hcond rfl rfl] at this
          omega
    · -- matched id: no new/replace notification for the head
      obtain ⟨hnd', hkeys'⟩ := dictPop_some_keys t.id recorded v rec' hnd hpop
      have htid_in : t.id ∈ recorded.map Prod.fst :=
        List.mem_map_of_mem Prod.fst (dictPop_some_mem t.id recorded v rec' hpop)
      have hcond : (id ∈ rest.map Test.id ∧ id ∉ rec'.map Prod.fst) ↔
          (id ∈ (t :: rest).map Test.id ∧ id ∉ recorded.map Prod.fst) := by
        constructor
        · rintro ⟨hmem, hnotin⟩
          have hne : id ≠ t.id := by
            intro hc
            exact hndt'.2 (hc ▸ hmem)
          exact ⟨by simp [hmem], fun hin => hnotin ((hkeys' id).mpr ⟨hin, hne⟩)⟩
        · rintro ⟨hmem, hnotin⟩
          rw [List.map_cons] at hmem
          rcases List.mem_cons.mp hmem with hc | hc
          · refine absurd ?_ hnotin
            rw [hc]
            exact htid_in
          · exact ⟨hc, fun hin => hnotin ((hkeys' id).mp hin).1⟩
      by_cases hline : v.line ≠ t.line
      · rw [diffTests_step_move ir res t rest done recorded v rec' hpop hline]
        rw [show ((Event.move (movedTest ir t), done ++ movedTest ir t :: rest)
            :: (diffTests ir res rest (done ++ [movedTest ir t]) rec').1,
            (diffTests ir res rest (done ++ [movedTest ir t]) rec').2).1.map Prod.fst
          = Event.move (movedTest ir t)
            :: (diffTests ir res rest (done ++ [movedTest ir t]) rec').1.map Prod.fst
          from by simp]
        rw [countEv_cons, countEv_cons]
        simp only [isNewOf, isReplaceOf]
        simp only [Bool.false_eq_true, if_false]
        have := ih (done ++ [movedTest ir t]) rec' hndt'.1 hnd'
        rw [if_congr hcond rfl rfl] at this
        omega
      · rw [diffTests_step_stay ir res t rest done recorded v rec' hpop hline]
        have := ih (done ++ [t]) rec' hndt'.1 hnd'
        rw [if_congr hcond rfl rfl] at this
        exact this

lemma diffTests_move_spec (ir : String → Bool) (res : String → String → Option Result)
    (t tp : Test) (rest : List Test) :
    ∀ done recorded, (rest.map Test.id).Nodup → (recorded.map Prod.fst).Nodup →
    t ∈ rest → (t.id, tp) ∈ recorded → tp.line ≠ t.line →
    countEv (isMoveOf t.id) ((diffTests ir res rest done recorded).1.map Prod.fst) = 1 ∧
    ∃ t' ∈ (diffTests ir res rest done recorded).2.1,
      t'.id = t.id ∧ t'.running = (if ir t.id = true then 1 else 0) := by
  induction rest with
  | nil =>
    intro done recorded _ _ ht _ _
    simp at ht
  | cons t0 rest ih =>
    intro done recorded hndt hnd htmem hrec hline
    have hndt' : (rest.map Test.id).Nodup ∧ t0.id ∉ rest.map Test.id := by
      rw [List.map_cons, List.nodup_cons] at hndt
      exact ⟨hndt.2, hndt.1⟩
    rcases List.mem_cons.mp htmem with heq | htmem'
    · subst heq
      obtain ⟨d', hpop⟩ := dictPop_mem_nodup t.id tp recorded hnd hrec
      rw [diffTests_step_move ir res t rest done recorded tp d' hpop hline]
      constructor
      · rw [show ((Event.move (movedTest ir t), done ++ movedTest ir t :: rest)
            :: (diffTests ir res rest (done ++ [movedTest ir t]) d').1,
            (diffTests ir res rest (done ++ [movedTest ir t]) d').2).1.map Prod.fst
          = Event.move (movedTest ir t)
            :: (diffTests ir res rest (done ++ [movedTest ir t]) d').1.map Prod.fst
          from by simp]
        rw [countEv_cons]
        have hz := (diffTests_zero_of_not_mem ir res t.id rest
          (done ++ [movedTest ir t]) d' hndt'.2).1
        have hmid : (movedTest ir t).id = t.id := rfl
        simp [isMoveOf, hmid, hz]
      · obtain ⟨suf, hsuf⟩ := diffTests_fin_append ir res rest (done ++ [movedTest ir t]) d'
        refine ⟨movedTest ir t, ?_, rfl, rfl⟩
        rw [show ((Event.move (movedTest ir t), done ++ movedTest ir t :: rest)
            :: (diffTests ir res rest (done ++ [movedTest ir t]) d').1,
            (diffTests ir res rest (done ++ [movedTest ir t]) d').2).2.1
          = (diffTests ir res rest (done ++ [movedTest ir t]) d').2.1 from rfl, hsuf]
        simp
    · have htid_ne : ¬(t0.id == t.id) = true := by
        simp only [beq_iff_eq]
        intro hc
        exact hndt'.2 (hc ▸ List.mem_map_of_mem Test.id htmem')
      rcases hpop : dictPop t0.id recorded with _ | ⟨v, rec'⟩
      · rcases hres : res t0.file t0.id with _ | r0
        · rw [diffTests_step_new ir res t0 rest done recorded hpop hres]
          obtain ⟨hcnt, t', ht', hprop⟩ := ih (done ++ [t0]) recorded hndt'.1 hnd htmem' hrec hline
          exact ⟨by simp [isMoveOf, hcnt], t', ht', hprop⟩
        · rw [diffTests_step_replace ir res t0 rest done recorded r0 hpop hres]
          obtain ⟨hcnt, t', ht', hprop⟩ := ih (done ++ [t0]) recorded hndt'.1 hnd htmem' hrec hline
          exact ⟨by simp [isMoveOf, hcnt], t', ht', hprop⟩
      · have hrec' : (t.id, tp) ∈ rec' :=
          dictPop_some_keep t0.id recorded v rec' hpop (t.id, tp) hrec
            (by simpa using fun hc => htid_ne (by simp [hc]))
        have hnd' := (dictPop_some_keys t0.id recorded v rec' hnd hpop).1
        by_cases hline0 : v.line ≠ t0.line
        · rw [diffTests_step_move ir res t0 rest done recorded v rec' hpop hline0]
          obtain ⟨hcnt, t', ht', hprop⟩ := ih (done ++ [movedTest ir t0]) rec' hndt'.1 hnd' htmem' hrec' hline
          refine ⟨?_, t', ht', hprop⟩
          rw [show ((Event.move (movedTest ir t0), done ++ movedTest ir t0 :: rest)
              :: (diffTests ir res rest (done ++ [movedTest ir t0]) rec').1,
              (diffTests ir res rest (done ++ [movedTest ir t0]) rec').2).1.map Prod.fst
            = Event.move (movedTest ir t0)
              :: (diffTests ir res rest (done ++ [movedTest ir t0]) rec').1.map Prod.fst
            from by simp]
          rw [countEv_cons]
          have hmid0 : (movedTest ir t0).id = t0.id := rfl
          simp [isMoveOf, hmid0, htid_ne, hcnt]
        · rw [diffTests_step_stay ir res t0 rest done recorded v rec' hpop hline0]
          exact ih (done ++ [t0]) rec' hndt'.1 hnd' htmem' hrec' hline

lemma diffTests_replace_spec (ir : String → Bool) (res : String → String → Option Result)
    (t : Test) (r0 : Result) (rest : List Test) :
    ∀ done recorded, (rest.map Test.id).Nodup → (recorded.map Prod.fst).Nodup →
    t ∈ rest → t.id ∉ recorded.map Prod.fst → res t.file t.id = some r0 →
    Event.replace t r0 ∈ (diffTests ir res rest done recorded).1.map Prod.fst := by
  induction rest with
  | nil =>
    intro done recorded _ _ ht _ _
    simp at ht
  | cons t0 rest ih =>
    intro done recorded hndt hnd htmem hfresh hres
    have hndt' : (rest.map Test.id).Nodup ∧ t0.id ∉ rest.map Test.id := by
      rw [List.map_cons, List.nodup_cons] at hndt
      exact ⟨hndt.2, hndt.1⟩
    rcases List.mem_cons.mp htmem with heq | htmem'
    · subst heq
      have hpop : dictPop t.id recorded = none := (dictPop_none_iff t.id recorded).mpr hfresh
      rw [diffTests_step_replace ir res t rest done recorded r0 hpop hres]
      simp
    · rcases hpop : dictPop t0.id recorded with _ | ⟨v, rec'⟩
      · rcases hres0 : res t0.file t0.id with _ | r1
        · rw [diffTests_step_new ir res t0 rest done recorded hpop hres0]
          have := ih (done ++ [t0]) recorded hndt'.1 hnd htmem' hfresh hres
          simp only [List.map_cons, List.mem_cons]
          exact Or.inr (by simpa using this)
        · rw [diffTests_step_replace ir res t0 rest done recorded r1 hpop hres0]
          have := ih (done ++ [t0]) recorded hndt'.1 hnd htmem' hfresh hres
          simp only [List.map_cons, List.mem_cons]
          exact Or.inr (by simpa using this)
      · have hnd' := (dictPop_some_keys t0.id recorded v rec' hnd hpop).1
        have hfresh' : t.id ∉ rec'.map Prod.fst := by
          intro hc
          exact hfresh ((dictPop_some_keys t0.id recorded v rec' hnd hpop).2 t.id |>.mp hc).1
        by_cases hline0 : v.line ≠ t0.line
        · rw [diffTests_step_move ir res t0 rest done recorded v rec' hpop hline0]
          have := ih (done ++ [movedTest ir t0]) rec' hndt'.1 hnd' htmem' hfresh' hres
          simp only [List.map_cons, List.mem_cons]
          exact Or.inr (by simpa using this)
        · rw [diffTests_step_stay ir res t0 rest done recorded v rec' hpop hline0]
          exact ih (done ++ [t0]) rec' hndt'.1 hnd' htmem' hfresh' hres

lemma dictOfTests_keys (l : List Test) (h : (l.map Test.id).Nodup) :
    (dictOfTests l).map Prod.fst = l.map Test.id := by
  rw [dictOfTests_eq_map l h, List.map_map]
  rfl

lemma dictOfTests_entry (l : List Test) (h : (l.map Test.id).Nodup) :
    ∀ e ∈ dictOfTests l, e.1 = e.2.id := by
  rw [dictOfTests_eq_map l h]
  intro e he
  obtain ⟨t, _, rfl⟩ := List.mem_map.mp he
  rfl

lemma countEv_clears_other (p : Event → Bool) (hp : ∀ t : Test, p (Event.clear t) = false)
    (rem : List (String × Test)) :
    countEv p (rem.map (fun e => Event.clear e.2)) = 0 := by
  apply countEv_eq_zero
  intro e he
  obtain ⟨x, _, rfl⟩ := List.mem_map.mp he
  simp [hp]

lemma countClear_clears_zero (id : String) (rem : List (String × Test))
    (hinv : ∀ e ∈ rem, e.1 = e.2.id) (h : id ∉ rem.map Prod.fst) :
    countEv (isClearOf id) (rem.map (fun e => Event.clear e.2)) = 0 := by
  apply countEv_eq_zero
  intro e he
  obtain ⟨x, hx, rfl⟩ := List.mem_map.mp he
  simp only [isClearOf, beq_iff_eq]
  intro hc
  exact h (by
    rw [← hinv x hx] at hc
    exact hc ▸ List.mem_map_of_mem Prod.fst hx)

lemma countClear_clears (id : String) (rem : List (String × Test))
    (hinv : ∀ e ∈ rem, e.1 = e.2.id) (hnd : (rem.map Prod.fst).Nodup) :
    countEv (isClearOf id) (rem.map (fun e => Event.clear e.2)) =
      if id ∈ rem.map Prod.fst then 1 else 0 := by
  induction rem with
  | nil => simp
  | cons e rem ih =>
    have hinv' : ∀ x ∈ rem, x.1 = x.2.id := fun x hx => hinv x (by simp [hx])
    have hnd' : (rem.map Prod.fst).Nodup ∧ e.1 ∉ rem.map Prod.fst := by
      rw [List.map_cons, List.nodup_cons] at hnd
      exact ⟨hnd.2, hnd.1⟩
    rw [List.map_cons, countEv_cons]
    by_cases hid : id = e.1
    · have hz := countClear_clears_zero id rem hinv' (hid ▸ hnd'.2)
      have hhead : isClearOf id (Event.clear e.2) = true := by
        simp only [isClearOf, beq_iff_eq]
        rw [← hinv e (by simp), hid]
      have hmem : id ∈ e.1 :: List.map Prod.fst rem := by simp [hid]
      rw [hhead, hz]
      simp [hmem]
    · have hhead : isClearOf id (Event.clear e.2) = false := by
        simp only [isClearOf, beq_iff_eq]
        rw [← hinv e (by simp)]
        simp
        exact fun hc => hid hc.symm
      rw [ih hinv' hnd'.1]
      have hmem : (id ∈ (e :: rem).map Prod.fst) ↔ (id ∈ rem.map Prod.fst) := by
        simp only [List.map_cons, List.mem_cons]
        constructor
        · rintro (hc | hc)
          · exact absurd hc hid
          · exact hc
        · exact Or.inr
      rw [if_congr hmem.symm rfl rfl]
      simp [hhead]

lemma update_positions_eq_body (env : UpdateEnv) (ir : String → Bool) (nt : List Test)
    (cb : Option (HandlerState → HandlerState × List (Event × List Test)))
    (st : HandlerState) (file : String) (h : env.launches = true) :
    update_positions env ir nt cb st file = updateBody ir nt cb st file := by
  unfold UpdateEnv.launches at h
  rcases env with ⟨isFile, pats⟩
  cases isFile
  · simp at h
  · cases pats with
    | raised => simp at h
    | ok ps =>
      simp only [Bool.true_and] at h
      have hps : ¬ps = [] := by
        intro hc
        rw [hc] at h
        simp at h
      simp [update_positions, hps]

lemma updateBody_none (ir : String → Bool) (nt : List Test) (st : HandlerState) (file : String) :
    updateBody ir nt none st file =
      ({ st with
          storedTests := fun f =>
            if f = file then (diffTests ir st.results nt [] (dictOfTests (st.storedTests file))).2.1
            else st.storedTests f,
          tasks := st.tasks ++ ["update_positions"] },
        (if dictOfTests (st.storedTests file) = [] then
          [(Event.setbufvar file "ultest_results", st.storedTests file),
           (Event.setbufvar file "ultest_tests", st.storedTests file),
           (Event.setbufvar file "ultest_sorted_tests", st.storedTests file)]
         else [])
          ++ ((Event.storeSortedIds file (nt.map Test.id), nt)
              :: (diffTests ir st.results nt [] (dictOfTests (st.storedTests file))).1
            ++ (diffTests ir st.results nt [] (dictOfTests (st.storedTests file))).2.2.map
                (fun e => (Event.clear e.2,
                  (diffTests ir st.results nt [] (dictOfTests (st.storedTests file))).2.1))
            ++ [(Event.positionsUpdate,
                  (diffTests ir st.results nt [] (dictOfTests (st.storedTests file))).2.1)]),
        true) := rfl

lemma updateBody_none_countEv (p : Event → Bool)
    (hsb : ∀ f v, p (Event.setbufvar f v) = false)
    (hss : ∀ f ids, p (Event.storeSortedIds f ids) = false)
    (hpu : p Event.positionsUpdate = false)
    (ir : String → Bool) (nt : List Test) (st : HandlerState) (file : String) :
    countEv p ((updateBody ir nt none st file).2.1.map Prod.fst) =
      countEv p ((diffTests ir st.results nt [] (dictOfTests (st.storedTests file))).1.map Prod.fst)
      + countEv p ((diffTests ir st.results nt [] (dictOfTests (st.storedTests file))).2.2.map
          (fun e => Event.clear e.2)) := by
  rw [updateBody_none]
  have hcomp : (Prod.fst ∘ fun e : String × Test =>
      (Event.clear e.2, (diffTests ir st.results nt [] (dictOfTests (st.storedTests file))).2.1))
      = fun e : String × Test => Event.clear e.2 := rfl
  simp only [List.map_append, List.map_cons, List.map_map, countEv_append, countEv_cons,
    hss, hpu, Bool.false_eq_true, if_false, hcomp]
  split <;> simp [hsb]

lemma updateBody_none_mem_of_diff (ir : String → Bool) (nt : List Test)
    (st : HandlerState) (file : String) (e : Event)
    (he : e ∈ (diffTests ir st.results nt []
      (dictOfTests (st.storedTests file))).1.map Prod.fst) :
    e ∈ (updateBody ir nt none st file).2.1.map Prod.fst := by
  rw [updateBody_none]
  simp only [List.map_append, List.map_cons, List.map_map, List.mem_append, List.mem_cons]
  simp [he]

lemma updateBody_none_state (ir : String → Bool) (nt : List Test)
    (st : HandlerState) (file : String) :
    (updateBody ir nt none st file).1.storedTests file =
      (diffTests ir st.results nt [] (dictOfTests (st.storedTests file))).2.1 := by
  rw [updateBody_none]
  simp

lemma updateBody_some (ir : String → Bool) (nt : List Test) (st : HandlerState) (file : String)
    (k : HandlerState → HandlerState × List (Event × List Test)) :
    updateBody ir nt (some k) st file =
      ((k { st with
          storedTests := fun f =>
            if f = file then (diffTests ir st.results nt [] (dictOfTests (st.storedTests file))).2.1
            else st.storedTests f,
          tasks := st.tasks ++ ["update_positions"] }).1,
        ((if dictOfTests (st.storedTests file) = [] then
          [(Event.setbufvar file "ultest_results", st.storedTests file),
           (Event.setbufvar file "ultest_tests", st.storedTests file),
           (Event.setbufvar file "ultest_sorted_tests", st.storedTests file)]
         else [])
          ++ ((Event.storeSortedIds file (nt.map Test.id), nt)
              :: (diffTests ir st.results nt [] (dictOfTests (st.storedTests file))).1
            ++ (diffTests ir st.results nt [] (dictOfTests (st.storedTests file))).2.2.map
                (fun e => (Event.clear e.2,
                  (diffTests ir st.results nt [] (dictOfTests (st.storedTests file))).2.1))
            ++ [(Event.positionsUpdate,
                  (diffTests ir st.results nt [] (dictOfTests (st.storedTests file))).2.1)]))
          ++ (k { st with
              storedTests := fun f =>
                if f = file then
                  (diffTests ir st.results nt [] (dictOfTests (st.storedTests file))).2.1
                else st.storedTests f,
              tasks := st.tasks ++ ["update_positions"] }).2,
        true) := rfl

/-! ### Claim theorems: the easy handler paths -/

lemma update_positions_guard_noop (env : UpdateEnv) (ir : String → Bool)
    (nt : List Test) (cb : Option (HandlerState → HandlerState × List (Event × List Test)))
    (st : HandlerState) (file : String)
    (h : env.isFile = false ∨ env.patterns = PatternsCall.raised
        ∨ env.patterns = PatternsCall.ok []) :
    update_positions env ir nt cb st file = (st, [], false) := by
  rcases h with h | h | h
  · simp [update_positions, h]
  · by_cases hf : env.isFile = false <;> simp [update_positions, h, hf]
  · by_cases hf : env.isFile = false <;> simp [update_positions, h, hf]

lemma guard_of_not_launches (env : UpdateEnv) (hl : ¬env.launches = true) :
    env.isFile = false ∨ env.patterns = PatternsCall.raised
      ∨ env.patterns = PatternsCall.ok [] := by
  rcases env with ⟨isFile, pats⟩
  cases isFile
  · exact Or.inl rfl
  · cases pats with
    | raised => exact Or.inr (Or.inl rfl)
    | ok ps =>
      cases ps with
      | nil => exact Or.inr (Or.inr rfl)
      | cons a l => exact absurd (by simp [UpdateEnv.launches]) hl

lemma countEv_ge_one {p : Event → Bool} {E : List Event} {e : Event}
    (he : e ∈ E) (hpe : p e = true) : 1 ≤ countEv p E := by
  have hmem : e ∈ E.filter p := List.mem_filter.mpr ⟨he, hpe⟩
  have hpos : 0 < (E.filter p).length := List.length_pos_of_mem hmem
  simpa [countEv] using hpos

/-- C7: if the file does not exist on disk, or the pattern lookup raises or
returns nothing, `update_positions` returns without launching a discovery
task, without mutating any state, and without emitting any notification. -/
theorem update_positions_silently_noop (env : UpdateEnv) (ir : String → Bool)
    (nt : List Test) (cb : Option (HandlerState → HandlerState × List (Event × List Test)))
    (st : HandlerState) (file : String)
    (h : env.isFile = false ∨ env.patterns = PatternsCall.raised
        ∨ env.patterns = PatternsCall.ok []) :
    update_positions env ir nt cb st file = (st, [], false) :=
  update_positions_guard_noop env ir nt cb st file h

/-- C7 witness: on a nonexistent file the reconciliation is a no-op. -/
theorem update_positions_silently_noop_witness :
    envNoFile.isFile = false
      ∧ update_positions envNoFile ir0 [t1b] none st0 "f" = (st0, [], false) :=
  ⟨rfl, update_positions_silently_noop envNoFile ir0 [t1b] none st0 "f" (Or.inl rfl)⟩

/-- C1: in one reconciliation pass, every previous id absent from the new
list is reported exactly once as removed, and every new id absent from the
previous snapshot is reported exactly once as either new or replaced —
never both, never more than once. -/
theorem update_positions_exhaustive_diff (env : UpdateEnv) (ir : String → Bool)
    (nt : List Test) (st : HandlerState) (file : String)
    (hl : env.launches = true)
    (hprev : ((st.storedTests file).map Test.id).Nodup)
    (hnew : (nt.map Test.id).Nodup) (id : String) :
    ((∃ t ∈ st.storedTests file, t.id = id) → (∀ t ∈ nt, t.id ≠ id) →
      countEv (isClearOf id) ((update_positions env ir nt none st file).2.1.map Prod.fst) = 1)
    ∧ ((∃ t ∈ nt, t.id = id) → (∀ t ∈ st.storedTests file, t.id ≠ id) →
      countEv (isNewOf id) ((update_positions env ir nt none st file).2.1.map Prod.fst)
        + countEv (isReplaceOf id) ((update_positions env ir nt none st file).2.1.map Prod.fst)
        = 1) := by
  have hkeys : (dictOfTests (st.storedTests file)).map Prod.fst
      = (st.storedTests file).map Test.id := dictOfTests_keys _ hprev
  have hndk : ((dictOfTests (st.storedTests file)).map Prod.fst).Nodup := by
    rw [hkeys]
    exact hprev
  rw [update_positions_eq_body env ir nt none st file hl]
  constructor
  · intro hin hnot
    have hid_in : id ∈ (dictOfTests (st.storedTests file)).map Prod.fst := by
      rw [hkeys]
      obtain ⟨t, ht, htid⟩ := hin
      exact htid ▸ List.mem_map_of_mem Test.id ht
    have hid_no : id ∉ nt.map Test.id := by
      intro hc
      obtain ⟨t, ht, htid⟩ := List.mem_map.mp hc
      exact hnot t ht htid
    have hrem_mem : id ∈ (diffTests ir st.results nt []
        (dictOfTests (st.storedTests file))).2.2.map Prod.fst :=
      (diffTests_rem_keys ir st.results id nt [] _ hndk).mpr ⟨hid_in, hid_no⟩
    have hrem_inv : ∀ e ∈ (diffTests ir st.results nt []
        (dictOfTests (st.storedTests file))).2.2, e.1 = e.2.id :=
      fun e he => dictOfTests_entry _ hprev e (diffTests_rem_sub ir st.results nt [] _ e he)
    have hrem_nd := diffTests_rem_nodup ir st.results nt [] _ hndk
    have hclears := countClear_clears id _ hrem_inv hrem_nd
    rw [if_pos hrem_mem] at hclears
    have hdiff := diffTests_no_clear ir st.results id nt [] (dictOfTests (st.storedTests file))
    rw [updateBody_none_countEv (isClearOf id) (fun f v => rfl) (fun f ids => rfl) rfl
      ir nt st file, hdiff, hclears]
  · intro hin hnot
    have hid_in : id ∈ nt.map Test.id := by
      obtain ⟨t, ht, htid⟩ := hin
      exact htid ▸ List.mem_map_of_mem Test.id ht
    have hid_no : id ∉ (dictOfTests (st.storedTests file)).map Prod.fst := by
      rw [hkeys]
      intro hc
      obtain ⟨t, ht, htid⟩ := List.mem_map.mp hc
      exact hnot t ht htid
    have hsum := diffTests_nr_count ir st.results id nt [] _ hnew hndk
    rw [if_pos ⟨hid_in, hid_no⟩] at hsum
    have hcn := countEv_clears_other (isNewOf id) (fun t => rfl)
      (diffTests ir st.results nt [] (dictOfTests (st.storedTests file))).2.2
    have hcr := countEv_clears_other (isReplaceOf id) (fun t => rfl)
      (diffTests ir st.results nt [] (dictOfTests (st.storedTests file))).2.2
    rw [updateBody_none_countEv (isNewOf id) (fun f v => rfl) (fun f ids => rfl) rfl
        ir nt st file,
      updateBody_none_countEv (isReplaceOf id) (fun f v => rfl) (fun f ids => rfl) rfl
        ir nt st file, hcn, hcr]
    omega

/-- C1 witness: §8 scenario — previous `[t1@10, t2@20]`, rediscovered
`[t1@15, t3@20]`: `t2` is removed exactly once, `t3` is reported exactly
once as new-or-replaced. -/
theorem update_positions_exhaustive_diff_witness :
    countEv (isClearOf "t2")
        ((update_positions env0 ir0 [t1b, t3a] none st0 "f").2.1.map Prod.fst) = 1
    ∧ countEv (isNewOf "t3")
        ((update_positions env0 ir0 [t1b, t3a] none st0 "f").2.1.map Prod.fst)
      + countEv (isReplaceOf "t3")
        ((update_positions env0 ir0 [t1b, t3a] none st0 "f").2.1.map Prod.fst) = 1 := by
  refine ⟨?_, ?_⟩
  · exact (update_positions_exhaustive_diff env0 ir0 [t1b, t3a] st0 "f"
      (by decide) (by decide) (by decide) "t2").1 (by decide) (by decide)
  · exact (update_positions_exhaustive_diff env0 ir0 [t1b, t3a] st0 "f"
      (by decide) (by decide) (by decide) "t3").2 (by decide) (by decide)

/-- C2: when a test id exists in both the previous snapshot and the new
list but its line differs, the pass reports it exactly once as moved —
never as removed, new or replaced — and the committed snapshot carries it
with `running` equal to the Run Engine's `is_running` answer queried during
the pass, not the pre-refresh value. -/
theorem update_positions_identity_stability (env : UpdateEnv) (ir : String → Bool)
    (nt : List Test) (st : HandlerState) (file : String)
    (hl : env.launches = true)
    (hprev : ((st.storedTests file).map Test.id).Nodup)
    (hnew : (nt.map Test.id).Nodup)
    (tp t : Test) (hp : tp ∈ st.storedTests file) (hn : t ∈ nt)
    (hid : tp.id = t.id) (hline : tp.line ≠ t.line) :
    countEv (isMoveOf t.id) ((update_positions env ir nt none st file).2.1.map Prod.fst) = 1
    ∧ countEv (isClearOf t.id) ((update_positions env ir nt none st file).2.1.map Prod.fst) = 0
    ∧ countEv (isNewOf t.id) ((update_positions env ir nt none st file).2.1.map Prod.fst) = 0
    ∧ countEv (isReplaceOf t.id) ((update_positions env ir nt none st file).2.1.map Prod.fst) = 0
    ∧ ∃ t' ∈ (update_positions env ir nt none st file).1.storedTests file,
        t'.id = t.id ∧ t'.running = (if ir t.id = true then 1 else 0) := by
  have hkeys : (dictOfTests (st.storedTests file)).map Prod.fst
      = (st.storedTests file).map Test.id := dictOfTests_keys _ hprev
  have hndk : ((dictOfTests (st.storedTests file)).map Prod.fst).Nodup := by
    rw [hkeys]
    exact hprev
  have hrec : (t.id, tp) ∈ dictOfTests (st.storedTests file) := by
    rw [dictOfTests_eq_map _ hprev, ← hid]
    exact List.mem_map_of_mem (fun x => (x.id, x)) hp
  rw [update_positions_eq_body env ir nt none st file hl]
  obtain ⟨hmove, hex⟩ := diffTests_move_spec ir st.results t tp nt []
    (dictOfTests (st.storedTests file)) hnew hndk hn hrec hline
  have htid_nt : t.id ∈ nt.map Test.id := List.mem_map_of_mem Test.id hn
  have hrem_not : t.id ∉ (diffTests ir st.results nt []
      (dictOfTests (st.storedTests file))).2.2.map Prod.fst := by
    rw [diffTests_rem_keys ir st.results t.id nt [] _ hndk]
    rintro ⟨_, habs⟩
    exact habs htid_nt
  have hrem_inv : ∀ e ∈ (diffTests ir st.results nt []
      (dictOfTests (st.storedTests file))).2.2, e.1 = e.2.id :=
    fun e he => dictOfTests_entry _ hprev e (diffTests_rem_sub ir st.results nt [] _ e he)
  have htid_keys : t.id ∈ (dictOfTests (st.storedTests file)).map Prod.fst :=
    List.mem_map_of_mem Prod.fst hrec
  have hsum := diffTests_nr_count ir st.results t.id nt [] _ hnew hndk
  rw [if_neg (by rintro ⟨_, habs⟩; exact habs htid_keys)] at hsum
  refine ⟨?_, ?_, ?_, ?_, ?_⟩
  · rw [updateBody_none_countEv (isMoveOf t.id) (fun f v => rfl) (fun f ids => rfl) rfl
        ir nt st file, hmove,
      countEv_clears_other (isMoveOf t.id) (fun x => rfl) _]
  · rw [updateBody_none_countEv (isClearOf t.id) (fun f v => rfl) (fun f ids => rfl) rfl
        ir nt st file,
      diffTests_no_clear ir st.results t.id nt [] _,
      countClear_clears_zero t.id _ hrem_inv hrem_not]
  · have hw := updateBody_none_countEv (isNewOf t.id) (fun f v => rfl) (fun f ids => rfl) rfl
      ir nt st file
    rw [countEv_clears_other (isNewOf t.id) (fun x => rfl) _] at hw
    omega
  · have hw := updateBody_none_countEv (isReplaceOf t.id) (fun f v => rfl) (fun f ids => rfl) rfl
      ir nt st file
    rw [countEv_clears_other (isReplaceOf t.id) (fun x => rfl) _] at hw
    omega
  · rw [updateBody_none_state ir nt st file]
    exact hex

/-- C2 witness: `t1` moves from line 10 to 15 while the engine reports it
running — one move notification, no removal/new/replace, and the committed
snapshot holds it with `running = 1`. -/
theorem update_positions_identity_stability_witness :
    t1a ∈ st0.storedTests "f"
    ∧ countEv (isMoveOf "t1")
        ((update_positions env0 ir0 [t1b, t3a] none st0 "f").2.1.map Prod.fst) = 1
    ∧ ∃ t' ∈ (update_positions env0 ir0 [t1b, t3a] none st0 "f").1.storedTests "f",
        t'.id = "t1" ∧ t'.running = (if ir0 "t1" = true then 1 else 0) := by
  have h := update_positions_identity_stability env0 ir0 [t1b, t3a] st0 "f"
    (by decide) (by decide) (by decide) t1a t1b (by decide) (by decide) (by decide) (by decide)
  exact ⟨by decide, h.1, h.2.2.2.2⟩

/-- C3: a newly discovered test whose id is absent from the previous
snapshot but has a cached Result under (file, id) is reported with a
replace notification carrying that Result — exactly once — and never with
a new-test notification. -/
theorem update_positions_reappearance_replaces (env : UpdateEnv) (ir : String → Bool)
    (nt : List Test) (st : HandlerState) (file : String)
    (hl : env.launches = true)
    (hprev : ((st.storedTests file).map Test.id).Nodup)
    (hnew : (nt.map Test.id).Nodup)
    (t : Test) (r : Result) (hn : t ∈ nt)
    (hfresh : ∀ tp ∈ st.storedTests file, tp.id ≠ t.id)
    (hres : st.results t.file t.id = some r) :
    Event.replace t r ∈ ((update_positions env ir nt none st file).2.1.map Prod.fst)
    ∧ countEv (isReplaceOf t.id) ((update_positions env ir nt none st file).2.1.map Prod.fst) = 1
    ∧ countEv (isNewOf t.id) ((update_positions env ir nt none st file).2.1.map Prod.fst) = 0 := by
  have hkeys : (dictOfTests (st.storedTests file)).map Prod.fst
      = (st.storedTests file).map Test.id := dictOfTests_keys _ hprev
  have hndk : ((dictOfTests (st.storedTests file)).map Prod.fst).Nodup := by
    rw [hkeys]
    exact hprev
  have hfreshk : t.id ∉ (dictOfTests (st.storedTests file)).map Prod.fst := by
    rw [hkeys]
    intro hc
    obtain ⟨tp, htp, htid⟩ := List.mem_map.mp hc
    exact hfresh tp htp htid
  rw [update_positions_eq_body env ir nt none st file hl]
  have hmem_diff := diffTests_replace_spec ir st.results t r nt []
    (dictOfTests (st.storedTests file)) hnew hndk hn hfreshk hres
  have hmem := updateBody_none_mem_of_diff ir nt st file _ hmem_diff
  have hsum := diffTests_nr_count ir st.results t.id nt [] _ hnew hndk
  rw [if_pos ⟨List.mem_map_of_mem Test.id hn, hfreshk⟩] at hsum
  have hwR := updateBody_none_countEv (isReplaceOf t.id) (fun f v => rfl) (fun f ids => rfl) rfl
    ir nt st file
  rw [countEv_clears_other (isReplaceOf t.id) (fun x => rfl) _] at hwR
  have hwN := updateBody_none_countEv (isNewOf t.id) (fun f v => rfl) (fun f ids => rfl) rfl
    ir nt st file
  rw [countEv_clears_other (isNewOf t.id) (fun x => rfl) _] at hwN
  have hge : 1 ≤ countEv (isReplaceOf t.id) ((updateBody ir nt none st file).2.1.map Prod.fst) :=
    countEv_ge_one hmem (by simp [isReplaceOf])
  exact ⟨hmem, by omega, by omega⟩

/-- C3 witness: `t3` reappears while the cache holds a result for
(`f`, `t3`): the pass emits a replace carrying that result and no
new-test notification. -/
theorem update_positions_reappearance_replaces_witness :
    (Event.replace t3a ⟨"t3", "f", 2, "boom"⟩
      ∈ ((update_positions env0 ir0 [t1b, t3a] none stRes3 "f").2.1.map Prod.fst))
    ∧ countEv (isReplaceOf "t3")
        ((update_positions env0 ir0 [t1b, t3a] none stRes3 "f").2.1.map Prod.fst) = 1
    ∧ countEv (isNewOf "t3")
        ((update_positions env0 ir0 [t1b, t3a] none stRes3 "f").2.1.map Prod.fst) = 0 :=
  update_positions_reappearance_replaces env0 ir0 [t1b, t3a] stRes3 "f"
    (by decide) (by decide) (by decide) t3a ⟨"t3", "f", 2, "boom"⟩
    (by decide) (by decide) (by decide)

/-- C9 counterexample: with previous snapshot `[t1]` and an empty
rediscovery, the removal notification for `t1` is emitted while
`snapshot[f]` already holds the new (empty) list, not the previous one —
the pass does not wait to commit until after its per-test notifications. -/
theorem update_positions_commit_order_counterexample :
    ¬(∀ p ∈ (update_positions env0 ir0 [] none st1f "f").2.1,
        isPerTestEvent p.1 = true → p.2 = st1f.storedTests "f") := by decide

/-- C9 (amended): the new ordered list is committed as `snapshot[file]`
before the per-test notifications are emitted: every per-test notification
(move, new, replace, removal) of the pass sees `snapshot[file]` already
holding the new list — same ids and lines as the discovered list, with
only running flags possibly differing — never the previous list. -/
theorem update_positions_commit_before_notify (env : UpdateEnv) (ir : String → Bool)
    (nt : List Test) (st : HandlerState) (file : String) (p : Event × List Test)
    (hp : p ∈ (update_positions env ir nt none st file).2.1)
    (hpt : isPerTestEvent p.1 = true) :
    p.2.map idLine = nt.map idLine := by
  by_cases hl : env.launches = true
  · rw [update_positions_eq_body env ir nt none st file hl, updateBody_none] at hp
    rcases List.mem_append.mp hp with hp | hp
    · by_cases hpre : dictOfTests (st.storedTests file) = []
      · rw [if_pos hpre] at hp
        simp only [List.mem_cons, List.not_mem_nil, or_false] at hp
        rcases hp with rfl | rfl | rfl <;> simp [isPerTestEvent] at hpt
      · rw [if_neg hpre] at hp
        simp at hp
    · rcases List.mem_cons.mp hp with hp | hp
      · subst hp
        simp [isPerTestEvent] at hpt
      · rcases List.mem_append.mp hp with hp | hp
        · rcases List.mem_append.mp hp with hp | hp
          · have hline := diffTests_trace_idLine ir st.results nt []
              (dictOfTests (st.storedTests file)) p hp
            simpa using hline
          · obtain ⟨e, he, rfl⟩ := List.mem_map.mp hp
            have hfin := diffTests_fin_idLine ir st.results nt []
              (dictOfTests (st.storedTests file))
            simpa using hfin
        · simp only [List.mem_singleton] at hp
          subst hp
          simp [isPerTestEvent] at hpt
  · rw [update_positions_guard_noop env ir nt none st file (guard_of_not_launches env hl)] at hp
    simp at hp

/-- C9 (amended) witness: in the §8 scenario the removal notification for
`t2` is emitted with the snapshot already holding the new list. -/
theorem update_positions_commit_before_notify_witness :
    ((Event.clear t2a, ([⟨"t1", "n1", "f", 15, 1, 1⟩, t3a] : List Test))
        ∈ (update_positions env0 ir0 [t1b, t3a] none st0 "f").2.1
      ∧ isPerTestEvent (Event.clear t2a) = true)
    ∧ ([⟨"t1", "n1", "f", 15, 1, 1⟩, t3a] : List Test).map idLine = [t1b, t3a].map idLine :=
  ⟨⟨by decide, by decide⟩,
    update_positions_commit_before_notify env0 ir0 [t1b, t3a] st0 "f"
      (Event.clear t2a, ([⟨"t1", "n1", "f", 15, 1, 1⟩, t3a] : List Test))
      (by decide) (by decide)⟩

/-- C8: `stop_test` with no payload changes no state, issues no
cancellation, and emits no notification. -/
theorem stop_test_none_noop (st : HandlerState) : stop_test st none = (st, []) := rfl

/-- C10: `run_single` never launches a reconciliation (its reconciliation
count is 0 by computation), and when the file's snapshot has no test with
the requested id it dispatches nothing, emits nothing, and leaves the whole
state — snapshot, result cache, run engine — unchanged. -/
theorem run_single_no_refresh_no_dispatch (st : HandlerState) (test_id file : String)
    (h : ∀ t ∈ st.storedTests file, t.id ≠ test_id) :
    run_single st test_id file = (st, [], 0) := by
  have hf : (st.storedTests file).filter (fun t => t.id = test_id) = [] := by
    rw [List.filter_eq_nil_iff]
    intro t ht
    simpa using h t ht
  simp [run_single, run_tests, hf, runTestsGo]

/-- C10 witness: requesting an unknown id in a populated file is a no-op. -/
theorem run_single_no_refresh_no_dispatch_witness :
    (∀ t ∈ st0.storedTests "f", t.id ≠ "zz")
      ∧ run_single st0 "zz" "f" = (st0, [], 0) :=
  ⟨by decide, run_single_no_refresh_no_dispatch st0 "zz" "f" (by decide)⟩

/-- C4: on a file whose snapshot is empty and whose rediscovery again finds
nothing, `run_all` and `run_nearest` launch exactly one reconciliation
runner, dispatch no run (no start notification), and re-invoke themselves
once through the continuation with the retry flag cleared; that second
invocation — the snapshot still empty — performs no further reconciliation,
dispatch, or notification. -/
theorem dispatch_retry_bound (env : UpdateEnv) (ir : String → Bool)
    (gn : Nat → List Test → Bool → Option Test) (line : Nat)
    (st : HandlerState) (file : String)
    (hl : env.launches = true) (hempty : st.storedTests file = [])
    (hgn : ∀ ln l s t, gn ln l s = some t → t ∈ l) :
    ((run_all env ir [] file true st).2.2 = 1
      ∧ countEv isStart ((run_all env ir [] file true st).2.1.map Prod.fst) = 0
      ∧ (run_all env ir [] file true st).1.storedTests file = [])
    ∧ (∀ st2 : HandlerState, st2.storedTests file = [] →
        run_all env ir [] file false st2 = (st2, [], 0))
    ∧ ((run_nearest env ir [] gn line file true st).2.2 = 1
      ∧ countEv isStart ((run_nearest env ir [] gn line file true st).2.1.map Prod.fst) = 0
      ∧ (run_nearest env ir [] gn line file true st).1.storedTests file = [])
    ∧ (∀ st2 : HandlerState, st2.storedTests file = [] →
        run_nearest env ir [] gn line file false st2 = (st2, [], 0)) := by
  have hall_false : ∀ st2 : HandlerState, st2.storedTests file = [] →
      run_all env ir [] file false st2 = (st2, [], 0) := by
    intro st2 h2
    unfold run_all
    simp [h2]
  have hnear_false : ∀ st2 : HandlerState, st2.storedTests file = [] →
      run_nearest env ir [] gn line file false st2 = (st2, [], 0) := by
    intro st2 h2
    unfold run_nearest
    rcases hg : gn line (st2.storedTests file) false with _ | t
    · simp [h2] at hg ⊢
      simp [hg]
    · exact absurd (hgn line (st2.storedTests file) false t hg) (by simp [h2])
  have hst1 : ({ st with
      storedTests := fun f =>
        if f = file then (diffTests ir st.results [] [] (dictOfTests (st.storedTests file))).2.1
        else st.storedTests f,
      tasks := st.tasks ++ ["update_positions"] } : HandlerState).storedTests file = [] := by
    simp [diffTests]
  have hrunall : run_all env ir [] file true st =
      ({ st with
          storedTests := fun f =>
            if f = file then (diffTests ir st.results [] [] (dictOfTests (st.storedTests file))).2.1
            else st.storedTests f,
          tasks := st.tasks ++ ["update_positions"] },
        [(Event.setbufvar file "ultest_results", st.storedTests file),
         (Event.setbufvar file "ultest_tests", st.storedTests file),
         (Event.setbufvar file "ultest_sorted_tests", st.storedTests file),
         (Event.storeSortedIds file [], []),
         (Event.positionsUpdate, [])], 1) := by
    unfold run_all
    rw [dif_pos ⟨hempty, rfl⟩, update_positions_eq_body env ir [] _ st file hl, updateBody_some]
    rw [hall_false _ hst1]
    have hdict : dictOfTests (st.storedTests file) = [] := by
      rw [hempty]
      rfl
    simp [hdict, diffTests]
  have hrunnear : run_nearest env ir [] gn line file true st =
      ({ st with
          storedTests := fun f =>
            if f = file then (diffTests ir st.results [] [] (dictOfTests (st.storedTests file))).2.1
            else st.storedTests f,
          tasks := st.tasks ++ ["update_positions"] },
        [(Event.setbufvar file "ultest_results", st.storedTests file),
         (Event.setbufvar file "ultest_tests", st.storedTests file),
         (Event.setbufvar file "ultest_sorted_tests", st.storedTests file),
         (Event.storeSortedIds file [], []),
         (Event.positionsUpdate, [])], 1) := by
    unfold run_nearest
    rw [dif_pos ⟨hempty, rfl⟩, update_positions_eq_body env ir [] _ st file hl, updateBody_some]
    rw [hnear_false _ hst1]
    have hdict : dictOfTests (st.storedTests file) = [] := by
      rw [hempty]
      rfl
    simp [hdict, diffTests]
  refine ⟨⟨?_, ?_, ?_⟩, hall_false, ⟨?_, ?_, ?_⟩, hnear_false⟩
  · rw [hrunall]
  · rw [hrunall]
    simp [countEv, isStart]
  · rw [hrunall]
    simp [diffTests]
  · rw [hrunnear]
  · rw [hrunnear]
    simp [countEv, isStart]
  · rw [hrunnear]
    simp [diffTests]

/-- C4 witness: a concrete empty file and a finder that finds nothing —
one reconciliation launch, no dispatch, and a no-op second invocation. -/
theorem dispatch_retry_bound_witness :
    ((run_all env0 ir0 [] "f" true stEmpty).2.2 = 1
      ∧ countEv isStart ((run_all env0 ir0 [] "f" true stEmpty).2.1.map Prod.fst) = 0
      ∧ (run_all env0 ir0 [] "f" true stEmpty).1.storedTests "f" = [])
    ∧ (∀ st2 : HandlerState, st2.storedTests "f" = [] →
        run_all env0 ir0 [] "f" false st2 = (st2, [], 0))
    ∧ ((run_nearest env0 ir0 [] gnNone 1 "f" true stEmpty).2.2 = 1
      ∧ countEv isStart ((run_nearest env0 ir0 [] gnNone 1 "f" true stEmpty).2.1.map Prod.fst) = 0
      ∧ (run_nearest env0 ir0 [] gnNone 1 "f" true stEmpty).1.storedTests "f" = [])
    ∧ (∀ st2 : HandlerState, st2.storedTests "f" = [] →
        run_nearest env0 ir0 [] gnNone 1 "f" false st2 = (st2, [], 0)) :=
  dispatch_retry_bound env0 ir0 gnNone 1 stEmpty "f" (by decide) rfl
    (fun ln l s t h => by
      simp [gnNone] at h)

/-- C5: after `external_start` on payload `x`/file `f` and `external_result`
with exit code 1 and stdout `fail`, the result cache holds that result under
(`f`, `x`), the live-output buffer for `x` is cleared, and `x` is no longer
running. -/
theorem external_injection_round_trip (penv : PresentEnv) (st : HandlerState) :
    ((external_result penv (external_start st payloadX "").1 payloadX 1 "fail").1.results "f" "x"
        = some ⟨"x", "f", 1, "fail"⟩)
      ∧ pmOutput (external_result penv (external_start st payloadX "").1 payloadX 1 "fail").1.pm "x"
        = none
      ∧ pmIsRunning (external_result penv (external_start st payloadX "").1 payloadX 1 "fail").1.pm "x"
        = false := by
  refine ⟨?_, ?_, ?_⟩
  · simp [external_result, external_start, register_started, register_result, resultsAdd, payloadX]
  · simp [external_result, external_start, register_started, register_result,
      clearExternalOutput, pmOutput, payloadX, find_filter_bne]
  · simp [external_result, external_start, register_started, register_result,
      clearExternalOutput, pmIsRunning, payloadX, contains_filter_bne]

/-- C6: a registered result opens its captured output only when the run
failed (nonzero code), the displayed buffer is the result's file, and the
freshly re-resolved non-strict nearest test at the cursor has the result's
id; in every other situation no output is opened. -/
theorem register_result_presents_conditionally (penv : PresentEnv) (st : HandlerState)
    (t : Test) (r r' : Result)
    (h : Event.outputOpen r' ∈ (register_result penv st t r).2.map Prod.fst) :
    r' = r ∧ r.code ≠ 0 ∧ penv.expandCurrent = r.file
      ∧ ∃ nearest, get_nearest_test penv.getNearest st penv.bufLine r.file false = some nearest
          ∧ nearest.id = r.id := by
  simp only [register_result, List.map_cons, List.mem_cons] at h
  rcases h with h | h
  · exact absurd h (by simp)
  · by_cases hso : st.showOnRun = true ∧ r.output ≠ ""
    · rw [if_pos hso] at h
      simp only [present_output] at h
      by_cases hc : r.code ≠ 0 ∧ penv.expandCurrent = r.file
      · rw [if_pos hc] at h
        rcases hn : get_nearest_test penv.getNearest
            ({ st with results := resultsAdd st.results r.file r }) penv.bufLine r.file false
          with _ | nearest
        · rw [hn] at h
          simp at h
        · rw [hn] at h
          by_cases hid : nearest.id = r.id
          · simp only [hid, if_true] at h
            simp at h
            exact ⟨h, hc.1, hc.2, nearest, hn, hid⟩
          · simp [hid] at h
      · rw [if_neg hc] at h
        simp at h
    · rw [if_neg hso] at h
      simp at h

/-- C6 witness: a failing result for the test nearest the cursor in the
displayed buffer does open its output, and the theorem pins the conditions
under which that happened. -/
theorem register_result_presents_conditionally_witness :
    (Event.outputOpen rFail ∈ (register_result penv0 st1f t1a rFail).2.map Prod.fst)
    ∧ (rFail = rFail ∧ rFail.code ≠ 0 ∧ penv0.expandCurrent = rFail.file
      ∧ ∃ nearest, get_nearest_test penv0.getNearest st1f penv0.bufLine rFail.file false
          = some nearest ∧ nearest.id = rFail.id) :=
  ⟨by decide, register_result_presents_conditionally penv0 st1f t1a rFail rFail (by decide)⟩

end Ultest
